import Mathlib

/-!
A shallow embedding of the `almond` Rust library (files `src/almond.rs` and
`src/verifier.rs`): a macaroon-style bearer token built on a chained HMAC
accumulator, plus a caveat verifier.

Bytes are modelled as `Nat`, byte strings as `List Nat`.  The HMAC-SHA256
step `add_to_hash` (which uses the current 32-byte accumulator as the HMAC
key and overwrites it with the digest) is modelled as an explicit parameter
`H : List Nat → List Nat → List Nat`; every structural property of the
library holds for an arbitrary such function, with the 32-byte output length
taken as a hypothesis where it matters.
-/

deriving instance DecidableEq for Except

/-- Embedding of the constant `ALMOND_HASH_SEED : &[u8; 32] =
b"this_is_a_bit_of_arbitrary_data!"` : the arbitrary 32 byte array used to
seed the initial HMAC. -/
def ALMOND_HASH_SEED : List Nat :=
  "this_is_a_bit_of_arbitrary_data!".toList.map Char.toNat

/-- The type of the hash-extension step: `add_to_hash` keyed on the current
accumulator.  In the Rust source this is HMAC-SHA256. -/
abbrev HashFn := List Nat → List Nat → List Nat

/-- Embedding of `struct Almond`: 32-byte accumulator, caveat list,
generation byte and type byte string. -/
structure Almond where
  hash : List Nat
  caveats : List (List Nat)
  generation : Nat
  almond_type : List Nat
deriving DecidableEq, Repr

/-- Embedding of `enum AlmondParseError`. -/
inductive AlmondParseError where
  | InvalidAlmond
  | IncorrectHash
deriving DecidableEq, Repr

namespace Almond

/-- Embedding of `Almond::create`: start from the seed, extend with the
secret key, the single generation byte, then the type. -/
def create (H : HashFn) (key : List Nat) (generation : Nat)
    (almond_type : List Nat) : Almond :=
  { hash := H (H (H ALMOND_HASH_SEED key) [generation]) almond_type,
    caveats := [],
    generation := generation,
    almond_type := almond_type }

/-- Embedding of `Almond::add_literal_caveat`: extend the accumulator with
the caveat bytes and append them to the caveat list. -/
def add_literal_caveat (H : HashFn) (a : Almond) (caveat : List Nat) : Almond :=
  { a with hash := H a.hash caveat, caveats := a.caveats ++ [caveat] }

/-- Embedding of `Almond::add_caveat`: build `key` or `key ++ 0x20 ++ value`,
extend the accumulator with it, append it to the caveat list. -/
def add_caveat (H : HashFn) (a : Almond) (key : List Nat)
    (value : Option (List Nat)) : Almond :=
  let caveat : List Nat :=
    match value with
    | some val => key ++ 32 :: val
    | none => key
  { a with hash := H a.hash caveat, caveats := a.caveats ++ [caveat] }

/-- Embedding of `Almond::serialize_binary`: hash, generation byte, type,
then a `0x0A` after the type and after every caveat, and a final `pop`
removing the last byte (which is the trailing `0x0A`). -/
def serialize_binary (a : Almond) : List Nat :=
  (a.hash ++ [a.generation] ++ a.almond_type ++ [10] ++
    a.caveats.foldl (fun acc c => acc ++ c ++ [10]) []).dropLast

/-- Embedding of `Almond::parse_and_validate`: reject inputs shorter than 34
bytes with `InvalidAlmond`; otherwise read the 32-byte embedded hash and the
generation byte, split the rest on `0x0A` into the type and the caveats,
rebuild the token (recomputing the whole chain) and compare the recomputed
accumulator with the embedded hash, failing with `IncorrectHash` on
mismatch.  (`split` in Rust always yields at least one segment, so the
`ok_or(InvalidAlmond)` on the first segment never fires.) -/
def parse_and_validate (H : HashFn) (key input : List Nat) :
    Except AlmondParseError Almond :=
  if input.length < 34 then
    .error .InvalidAlmond
  else
    let hash := input.take 32
    let generation := input.getD 32 0
    let segments := (input.drop 33).splitOn 10
    let almond_type := segments.headD []
    let almond := segments.tail.foldl (fun a c => a.add_literal_caveat H c)
      (create H key generation almond_type)
    if hash = almond.hash then
      .ok almond
    else
      .error .IncorrectHash

end Almond

/-- Embedding of `struct DeconstructedCaveatEntry`: key, optional value and
the tri-state decision (`none` = unknown, `some true` = accepted,
`some false` = rejected). -/
structure DeconstructedCaveatEntry where
  key : List Nat
  value : Option (List Nat)
  accepted : Option Bool
deriving DecidableEq, Repr

/-- Embedding of the `splitn(2, |c| *c == b' ')` decomposition used by
`Verifier::new`: the key is everything before the first space byte, the
value (when a space is present) everything after it. -/
def splitCaveat (caveat : List Nat) : List Nat × Option (List Nat) :=
  let key := caveat.takeWhile (fun c => c ≠ 32)
  match caveat.dropWhile (fun c => c ≠ 32) with
  | [] => (key, none)
  | _ :: rest => (key, some rest)

/-- Embedding of `struct Verifier`: the deconstructed caveat entries and the
global reject flag. -/
structure Verifier where
  caveats : List DeconstructedCaveatEntry
  reject : Bool
deriving DecidableEq, Repr

namespace Verifier

/-- Embedding of `Verifier::new`: deconstruct every caveat at its first
space byte with decision unknown, and set the reject flag when the token's
generation or type differs from the expected one. -/
def new (almond : Almond) (generation : Nat) (almond_type : List Nat) :
    Verifier :=
  { caveats := almond.caveats.map (fun caveat =>
      let kv := splitCaveat caveat
      { key := kv.1, value := kv.2, accepted := none }),
    reject := decide (almond.generation ≠ generation)
      || decide (almond.almond_type ≠ almond_type) }

/-- Embedding of `Verifier::allow`: for every entry with the given key, set
`accepted := accepted.or (some true)`. -/
def allow (v : Verifier) (key : List Nat) : Verifier :=
  { v with caveats := v.caveats.map (fun item =>
      if item.key = key then
        { item with accepted := item.accepted.or (some true) }
      else item) }

/-- Embedding of the generic `Verifier::satisfies`: for every entry with
the given key, if it has a value recompute the decision as
`predicate value && accepted.unwrap_or(true)`, and if it has no value reset
the decision to unknown. -/
def satisfies (v : Verifier) (key : List Nat) (predicate : List Nat → Bool) :
    Verifier :=
  { v with caveats := v.caveats.map (fun item =>
      if item.key = key then
        { item with
          accepted := match item.value with
                      | some val => some (predicate val && item.accepted.getD true)
                      | none => none }
      else item) }

/-- Embedding of `Verifier::satisfies_exact`: for every entry with the
given key, set the decision to
`(value == expected) && accepted.unwrap_or(true)`. -/
def satisfies_exact (v : Verifier) (key : List Nat)
    (value : Option (List Nat)) : Verifier :=
  { v with caveats := v.caveats.map (fun item =>
      if item.key = key then
        { item with
          accepted := some (decide (item.value = value) && item.accepted.getD true) }
      else item) }

/-- Embedding of `Verifier::verify`: the reject flag is clear and every
entry's decision is `accepted.unwrap_or(false)`. -/
def verify (v : Verifier) : Bool :=
  !v.reject && v.caveats.all (fun item => item.accepted.getD false)

end Verifier

/-! Helper definitions used to state and prove the claims. -/

/-- Concrete hash function used to instantiate witnesses: its output always
has the 32-byte length that HMAC-SHA256 guarantees in the Rust source. -/
def H0 : HashFn := fun _ _ => List.replicate 32 0

/-- The hash chain described by the spec: seed, extended in order with the
secret key, the generation byte, the type, then each caveat. -/
def chainHash (H : HashFn) (key : List Nat) (generation : Nat)
    (almond_type : List Nat) (caveats : List (List Nat)) : List Nat :=
  caveats.foldl H (H (H (H ALMOND_HASH_SEED key) [generation]) almond_type)

/-- A caveat-append operation on a token: either `add_literal_caveat` or
`add_caveat`. -/
inductive CaveatOp where
  | literal (caveat : List Nat)
  | keyed (key : List Nat) (value : Option (List Nat))

/-- The caveat byte string an operation appends. -/
def CaveatOp.bytes : CaveatOp → List Nat
  | .literal c => c
  | .keyed k (some v) => k ++ 32 :: v
  | .keyed k none => k

/-- Apply a caveat-append operation to a token. -/
def applyCaveatOp (H : HashFn) (a : Almond) : CaveatOp → Almond
  | .literal c => a.add_literal_caveat H c
  | .keyed k v => a.add_caveat H k v

/-- A verifier rule call: `allow`, `satisfies` or `satisfies_exact`. -/
inductive RuleOp where
  | allowKey (key : List Nat)
  | sat (key : List Nat) (predicate : List Nat → Bool)
  | satExact (key : List Nat) (value : Option (List Nat))

/-- Apply a rule call to a verifier. -/
def applyRuleOp (v : Verifier) : RuleOp → Verifier
  | .allowKey k => v.allow k
  | .sat k p => v.satisfies k p
  | .satExact k val => v.satisfies_exact k val

/-- The reconstruction performed inside `parse_and_validate` on an input of
length at least 34: bytes 0..32 are the embedded hash, byte 32 the
generation, and the remainder is split on `0x0A` into the type and the
caveats, from which the token is rebuilt. -/
def reconstruct (H : HashFn) (key input : List Nat) : Almond :=
  ((input.drop 33).splitOn 10).tail.foldl (fun a c => a.add_literal_caveat H c)
    (Almond.create H key (input.getD 32 0) (((input.drop 33).splitOn 10).headD []))

lemma applyCaveatOp_eq (H : HashFn) (a : Almond) (op : CaveatOp) :
    applyCaveatOp H a op = a.add_literal_caveat H op.bytes := by
  cases op with
  | literal c => rfl
  | keyed k v => cases v <;> rfl

lemma foldl_add_literal (H : HashFn) :
    ∀ (cs : List (List Nat)) (a : Almond),
      cs.foldl (fun x c => x.add_literal_caveat H c) a =
        { hash := cs.foldl H a.hash, caveats := a.caveats ++ cs,
          generation := a.generation, almond_type := a.almond_type }
  | [], a => by simp
  | c :: cs, a => by
    rw [List.foldl_cons, foldl_add_literal H cs]
    simp [Almond.add_literal_caveat]

lemma foldl_H_length (H : HashFn) (hH : ∀ h d, (H h d).length = 32) :
    ∀ (cs : List (List Nat)) (h : List Nat), h.length = 32 →
      (cs.foldl H h).length = 32
  | [], h, hh => hh
  | c :: cs, h, _ => by
    rw [List.foldl_cons]
    exact foldl_H_length H hH cs (H h c) (hH h c)

lemma intercalate_singleton (s a : List Nat) :
    List.intercalate s [a] = a := by
  simp [List.intercalate]

lemma intercalate_cons_cons (s a b : List Nat) (l : List (List Nat)) :
    List.intercalate s (a :: b :: l) = a ++ s ++ List.intercalate s (b :: l) := by
  simp [List.intercalate]

lemma foldl_push_newline :
    ∀ (cs : List (List Nat)) (acc : List Nat),
      cs.foldl (fun a c => a ++ c ++ [10]) acc =
        acc ++ (cs.map (fun c => c ++ [10])).flatten
  | [], acc => by simp
  | c :: cs, acc => by
    rw [List.foldl_cons, foldl_push_newline cs]
    simp

lemma newline_join_eq_intercalate :
    ∀ (cs : List (List Nat)) (t : List Nat),
      t ++ [10] ++ (cs.map (fun c => c ++ [10])).flatten =
        List.intercalate [10] (t :: cs) ++ [10]
  | [], t => by simp [intercalate_singleton]
  | c :: cs, t => by
    have ih := newline_join_eq_intercalate cs c
    rw [intercalate_cons_cons]
    simp only [List.map_cons, List.flatten_cons]
    rw [ih]
    simp [List.append_assoc]

/-- The serialized form is the embedded hash, the generation byte, and the
newline-joined sequence of the type and the caveats. -/
lemma serialize_binary_eq (a : Almond) :
    a.serialize_binary =
      a.hash ++ a.generation :: List.intercalate [10] (a.almond_type :: a.caveats) := by
  unfold Almond.serialize_binary
  rw [foldl_push_newline]
  have h : a.hash ++ [a.generation] ++ a.almond_type ++ [10] ++
      ([] ++ (a.caveats.map (fun c => c ++ [10])).flatten) =
      (a.hash ++ a.generation :: List.intercalate [10] (a.almond_type :: a.caveats)) ++ [10] := by
    rw [List.nil_append]
    have := newline_join_eq_intercalate a.caveats a.almond_type
    simp only [List.append_assoc] at this ⊢
    rw [this]
    simp
  rw [h, List.dropLast_concat]

lemma foldl_applyCaveatOp (H : HashFn) :
    ∀ (ops : List CaveatOp) (a : Almond),
      ops.foldl (applyCaveatOp H) a =
        (ops.map CaveatOp.bytes).foldl (fun x c => x.add_literal_caveat H c) a
  | [], _ => rfl
  | op :: ops, a => by
    rw [List.foldl_cons, List.map_cons, List.foldl_cons, applyCaveatOp_eq,
      foldl_applyCaveatOp H ops]

lemma intercalate_newline_eq (t : List Nat) :
    ∀ cs : List (List Nat),
      List.intercalate [10] (t :: cs) = t ++ (cs.map (fun c => 10 :: c)).flatten
  | [] => by simp [intercalate_singleton]
  | c :: cs => by
    rw [intercalate_cons_cons, intercalate_newline_eq c cs]
    simp

/-! Claim theorems. -/

/-- Claim C3: for every token, `serialize_binary` returns exactly the
32-byte hash, then the generation byte, then the type, then every caveat in
order, each caveat preceded by a single `0x0A` separator — and nothing
after the last caveat. -/
theorem C3_serialize_format (a : Almond) :
    a.serialize_binary =
      a.hash ++ [a.generation] ++ a.almond_type ++
        (a.caveats.map (fun c => 10 :: c)).flatten := by
  rw [serialize_binary_eq, intercalate_newline_eq]
  simp

/-- Claim C4: every token reachable by `create` followed by any sequence of
caveat-append operations has its hash equal to the chain starting at the
fixed seed and extended, in order, with the secret key, the generation
byte, the type, and each appended caveat byte string; its caveat list
records exactly those byte strings in insertion order, and its generation
and type are never changed. -/
theorem C4_hash_chain_invariant (H : HashFn) (key : List Nat)
    (generation : Nat) (t : List Nat) (ops : List CaveatOp) :
    (ops.foldl (applyCaveatOp H) (Almond.create H key generation t)).hash
        = chainHash H key generation t (ops.map CaveatOp.bytes)
      ∧ (ops.foldl (applyCaveatOp H) (Almond.create H key generation t)).caveats
        = ops.map CaveatOp.bytes
      ∧ (ops.foldl (applyCaveatOp H) (Almond.create H key generation t)).generation
        = generation
      ∧ (ops.foldl (applyCaveatOp H) (Almond.create H key generation t)).almond_type
        = t := by
  rw [foldl_applyCaveatOp, foldl_add_literal]
  exact ⟨rfl, by simp [Almond.create], rfl, rfl⟩

lemma getD_false_iff (o : Option Bool) : o.getD false = true ↔ o = some true := by
  cases o <;> simp

/-- Claim C5: `verify` is `true` exactly when the reject flag is clear and
every entry's decision is accepted (an entry still unknown fails), and in
particular a verifier built from a token with at least one caveat yields
`false` before any rule is applied. -/
theorem C5_verify_characterization :
    (∀ v : Verifier,
      v.verify = true ↔
        (v.reject = false ∧ ∀ e ∈ v.caveats, e.accepted = some true))
    ∧ (∀ (a : Almond) (generation : Nat) (t : List Nat), a.caveats ≠ [] →
        (Verifier.new a generation t).verify = false) := by
  constructor
  · intro v
    simp [Verifier.verify, List.all_eq_true, getD_false_iff, Bool.not_eq_true']
  · intro a generation t hc
    cases h : a.caveats with
    | nil => exact absurd h hc
    | cons c cs => simp [Verifier.new, Verifier.verify, h]

/-- Witness for C5 at concrete inputs: a one-caveat token is denied with no
rules applied, and an empty verifier with a clear flag is accepted. -/
theorem C5_verify_characterization_witness :
    (Verifier.new ((Almond.create H0 [] 1 [108]).add_caveat H0 [117] (some [101]))
      1 [108]).verify = false
    ∧ (Verifier.mk [] false).verify = true :=
  ⟨C5_verify_characterization.2 _ 1 [108] (by decide),
   (C5_verify_characterization.1 _).2 ⟨rfl, by simp⟩⟩

lemma applyRuleOp_reject (v : Verifier) (op : RuleOp) :
    (applyRuleOp v op).reject = v.reject := by
  cases op <;> rfl

lemma foldl_applyRuleOp_reject :
    ∀ (ops : List RuleOp) (v : Verifier),
      (ops.foldl applyRuleOp v).reject = v.reject
  | [], _ => rfl
  | op :: ops, v => by
    rw [List.foldl_cons, foldl_applyRuleOp_reject ops, applyRuleOp_reject]

/-- Claim C6: when the token's generation or type differs from the expected
one, `Verifier.new` sets the reject flag, and after any sequence of
`allow` / `satisfies` / `satisfies_exact` calls `verify` is still `false`. -/
theorem C6_mismatch_always_false (a : Almond) (generation : Nat)
    (t : List Nat) (h : a.generation ≠ generation ∨ a.almond_type ≠ t)
    (ops : List RuleOp) :
    (Verifier.new a generation t).reject = true
    ∧ (ops.foldl applyRuleOp (Verifier.new a generation t)).verify = false := by
  have hr : (Verifier.new a generation t).reject = true := by
    rcases h with h | h <;> simp [Verifier.new, h]
  refine ⟨hr, ?_⟩
  unfold Verifier.verify
  rw [foldl_applyRuleOp_reject, hr]
  simp

/-- Witness for C6: a generation mismatch rejects even after an `allow`
call that matches the caveat. -/
theorem C6_mismatch_always_false_witness :
    (Verifier.new ((Almond.create H0 [] 1 [108]).add_caveat H0 [117] none) 2
      [108]).reject = true
    ∧ ([RuleOp.allowKey [117]].foldl applyRuleOp
        (Verifier.new ((Almond.create H0 [] 1 [108]).add_caveat H0 [117] none) 2
          [108])).verify = false :=
  C6_mismatch_always_false _ 2 [108] (Or.inl (by decide)) _

/-- Claim C10: a verifier built from a caveat-free token with the matching
expected generation and type verifies successfully with no rules applied:
deny-by-default is vacuous when there are no caveats. -/
theorem C10_empty_caveats_grant (a : Almond) (generation : Nat)
    (t : List Nat) (hc : a.caveats = []) (hg : a.generation = generation)
    (ht : a.almond_type = t) :
    (Verifier.new a generation t).verify = true := by
  simp [Verifier.new, Verifier.verify, hc, hg, ht]

/-- Witness for C10: a freshly created token with no caveats is accepted
unconditionally. -/
theorem C10_empty_caveats_grant_witness :
    (Verifier.new (Almond.create H0 [] 0 [108]) 0 [108]).verify = true :=
  C10_empty_caveats_grant _ 0 [108] rfl rfl rfl

lemma getD_true_eq (o : Option Bool) :
    o.getD true = decide (o ≠ some false) := by
  rcases o with _ | b
  · rfl
  · cases b <;> decide

/-- Claim C7: `satisfies key predicate` touches exactly the entries whose
key matches: an entry with a value becomes accepted when the predicate
holds on the value and the entry was previously accepted or undecided, and
rejected otherwise; an entry with no value is reset to unknown whatever its
prior decision was.  Other entries, the entry count and the reject flag are
untouched. -/
theorem C7_satisfies_update (v : Verifier) (key : List Nat)
    (predicate : List Nat → Bool) (i : Nat) (e : DeconstructedCaveatEntry)
    (he : v.caveats[i]? = some e) :
    (v.satisfies key predicate).reject = v.reject
    ∧ (v.satisfies key predicate).caveats.length = v.caveats.length
    ∧ (v.satisfies key predicate).caveats[i]? = some (
        if e.key = key then
          { e with
            accepted := match e.value with
                        | some val =>
                            some (predicate val && decide (e.accepted ≠ some false))
                        | none => none }
        else e) := by
  refine ⟨rfl, by simp [Verifier.satisfies], ?_⟩
  simp only [Verifier.satisfies, List.getElem?_map, he, Option.map_some']
  obtain ⟨ek, ev, ea⟩ := e
  by_cases hk : ek = key
  · cases ev with
    | none => simp [hk]
    | some val => simp [hk, getD_true_eq]
  · simp [hk]

/-- Witness for C7: a valueless entry previously accepted is reset to
unknown by `satisfies` on its key. -/
theorem C7_satisfies_update_witness :
    ((Verifier.mk [DeconstructedCaveatEntry.mk [117] none (some true)] false).satisfies
        [117] (fun _ => true)).caveats[0]?
      = some (DeconstructedCaveatEntry.mk [117] none none) := by
  have h := (C7_satisfies_update
    (Verifier.mk [DeconstructedCaveatEntry.mk [117] none (some true)] false)
    [117] (fun _ => true) 0
    (DeconstructedCaveatEntry.mk [117] none (some true)) rfl).2.2
  rw [h]
  decide

/-- Claim C8: `satisfies_exact key value` sets the decision of every entry
whose key matches to accepted exactly when the entry's optional value
equals the expected one and the entry was previously accepted or
undecided, and to rejected otherwise; other entries, the entry count and
the reject flag are untouched. -/
theorem C8_satisfies_exact_update (v : Verifier) (key : List Nat)
    (value : Option (List Nat)) (i : Nat) (e : DeconstructedCaveatEntry)
    (he : v.caveats[i]? = some e) :
    (v.satisfies_exact key value).reject = v.reject
    ∧ (v.satisfies_exact key value).caveats.length = v.caveats.length
    ∧ (v.satisfies_exact key value).caveats[i]? = some (
        if e.key = key then
          { e with
            accepted := some (decide (e.value = value)
              && decide (e.accepted ≠ some false)) }
        else e) := by
  refine ⟨rfl, by simp [Verifier.satisfies_exact], ?_⟩
  simp only [Verifier.satisfies_exact, List.getElem?_map, he, Option.map_some']
  obtain ⟨ek, ev, ea⟩ := e
  by_cases hk : ek = key
  · simp [hk, getD_true_eq]
  · simp [hk]

/-- Witness for C8: an entry whose value differs from the expected one is
rejected, and an absent expected value accepts exactly a valueless entry. -/
theorem C8_satisfies_exact_update_witness :
    ((Verifier.mk [DeconstructedCaveatEntry.mk [117] (some [5]) none] false).satisfies_exact
        [117] (some [6])).caveats[0]?
      = some (DeconstructedCaveatEntry.mk [117] (some [5]) (some false)) := by
  have h := (C8_satisfies_exact_update
    (Verifier.mk [DeconstructedCaveatEntry.mk [117] (some [5]) none] false)
    [117] (some [6]) 0
    (DeconstructedCaveatEntry.mk [117] (some [5]) none) rfl).2.2
  rw [h]
  decide

/-- Claim C9: `allow key` sets to accepted exactly the entries whose key
matches and whose decision is still unknown; entries already decided
(accepted or rejected) keep their decision, and other entries, the entry
count and the reject flag are untouched. -/
theorem C9_allow_update (v : Verifier) (key : List Nat) (i : Nat)
    (e : DeconstructedCaveatEntry) (he : v.caveats[i]? = some e) :
    (v.allow key).reject = v.reject
    ∧ (v.allow key).caveats.length = v.caveats.length
    ∧ (v.allow key).caveats[i]? = some (
        if e.key = key ∧ e.accepted = none then { e with accepted := some true }
        else e) := by
  refine ⟨rfl, by simp [Verifier.allow], ?_⟩
  simp only [Verifier.allow, List.getElem?_map, he, Option.map_some']
  obtain ⟨ek, ev, ea⟩ := e
  by_cases hk : ek = key
  · cases ea with
    | none => simp [hk]
    | some b => simp [hk]
  · simp [hk]

/-- Witness for C9: an unknown entry with a matching key becomes accepted,
while an already rejected entry with the same key keeps its decision. -/
theorem C9_allow_update_witness :
    ((Verifier.mk [DeconstructedCaveatEntry.mk [117] none (some false)] true).allow
        [117]).caveats[0]?
      = some (DeconstructedCaveatEntry.mk [117] none (some false)) := by
  have h := (C9_allow_update
    (Verifier.mk [DeconstructedCaveatEntry.mk [117] none (some false)] true)
    [117] 0 (DeconstructedCaveatEntry.mk [117] none (some false)) rfl).2.2
  rw [h]
  decide

lemma parse_eq_of_ge (H : HashFn) (key input : List Nat)
    (h : ¬ input.length < 34) :
    Almond.parse_and_validate H key input =
      if input.take 32 = (reconstruct H key input).hash
      then Except.ok (reconstruct H key input)
      else Except.error AlmondParseError.IncorrectHash := by
  unfold Almond.parse_and_validate
  rw [if_neg h]
  rfl

/-- Claim C2: `parse_and_validate` fails with `InvalidAlmond` exactly on
inputs shorter than 34 bytes; on longer inputs it reads bytes `0..32` as
the embedded hash and byte 32 as the generation, splits the rest on `0x0A`
into the type and the caveats in order, recomputes the chain from the
secret key, and returns the reconstructed token exactly when the
recomputed hash equals the embedded one, failing with `IncorrectHash`
otherwise; nothing but these three outcomes is possible. -/
theorem C2_parse_characterization (H : HashFn) (key input : List Nat) :
    (Almond.parse_and_validate H key input = Except.error AlmondParseError.InvalidAlmond
      ↔ input.length < 34)
    ∧ (34 ≤ input.length →
        (Almond.parse_and_validate H key input =
          if input.take 32 = (reconstruct H key input).hash
          then Except.ok (reconstruct H key input)
          else Except.error AlmondParseError.IncorrectHash)
        ∧ (reconstruct H key input).generation = input.getD 32 0
        ∧ (reconstruct H key input).almond_type = ((input.drop 33).splitOn 10).headD []
        ∧ (reconstruct H key input).caveats = ((input.drop 33).splitOn 10).tail) := by
  constructor
  · constructor
    · intro hc
      by_contra hge
      rw [parse_eq_of_ge H key input hge] at hc
      split at hc <;> simp_all
    · intro hlt
      simp [Almond.parse_and_validate, hlt]
  · intro h34
    have hge : ¬ input.length < 34 := by omega
    refine ⟨parse_eq_of_ge H key input hge, ?_, ?_, ?_⟩
    · unfold reconstruct
      rw [foldl_add_literal]
      rfl
    · unfold reconstruct
      rw [foldl_add_literal]
      rfl
    · unfold reconstruct
      rw [foldl_add_literal]
      simp [Almond.create]

/-- Witness for C2 on concrete 34-byte inputs: an all-zero input parses
successfully under the constant hash function (the recomputed chain is the
all-zero accumulator), while corrupting its first byte yields
`IncorrectHash`. -/
theorem C2_parse_characterization_witness :
    Almond.parse_and_validate H0 [] (List.replicate 34 0)
      = Except.ok (Almond.create H0 [] 0 [0])
    ∧ Almond.parse_and_validate H0 [] (1 :: List.replicate 33 0)
      = Except.error AlmondParseError.IncorrectHash := by
  constructor
  · have h := ((C2_parse_characterization H0 [] (List.replicate 34 0)).2 (by decide)).1
    rw [h]
    decide
  · have h := ((C2_parse_characterization H0 [] (1 :: List.replicate 33 0)).2 (by decide)).1
    rw [h]
    decide

lemma intercalate_newline_ne_nil (t : List Nat) (cs : List (List Nat))
    (hne : t ≠ [] ∨ cs ≠ []) : List.intercalate [10] (t :: cs) ≠ [] := by
  cases cs with
  | nil =>
    rw [intercalate_singleton]
    rcases hne with h | h
    · exact h
    · exact absurd rfl h
  | cons c cs => rw [intercalate_cons_cons]; simp

/-- Round-trip core: a token whose hash equals the chain recomputed from
the secret key, whose type and caveats contain no `0x0A` byte, and whose
type or caveat list is nonempty, parses back from its own serialization. -/
lemma parse_serialize_eq_ok (H : HashFn) (hH : ∀ h d, (H h d).length = 32)
    (key : List Nat) (a : Almond)
    (hhash : a.hash = chainHash H key a.generation a.almond_type a.caveats)
    (hx : ∀ l ∈ a.almond_type :: a.caveats, (10 : Nat) ∉ l)
    (hne : a.almond_type ≠ [] ∨ a.caveats ≠ []) :
    Almond.parse_and_validate H key a.serialize_binary = Except.ok a := by
  obtain ⟨hs, cv, g, ty⟩ := a
  simp only at hhash hx hne
  subst hhash
  have hClen : (chainHash H key g ty cv).length = 32 := by
    unfold chainHash
    exact foldl_H_length H hH cv _ (hH _ _)
  have hser := serialize_binary_eq (Almond.mk (chainHash H key g ty cv) cv g ty)
  simp only at hser
  rw [hser]
  have hinter : List.intercalate [10] (ty :: cv) ≠ [] :=
    intercalate_newline_ne_nil ty cv hne
  have hpos : 1 ≤ (List.intercalate [10] (ty :: cv)).length :=
    List.length_pos.mpr hinter
  have hge : ¬ (chainHash H key g ty cv ++
      g :: List.intercalate [10] (ty :: cv)).length < 34 := by
    rw [List.length_append, List.length_cons, hClen]
    omega
  rw [parse_eq_of_ge H key _ hge]
  have htake : (chainHash H key g ty cv ++
      g :: List.intercalate [10] (ty :: cv)).take 32 = chainHash H key g ty cv :=
    List.take_left' hClen
  have hdrop : (chainHash H key g ty cv ++
      g :: List.intercalate [10] (ty :: cv)).drop 33 =
        List.intercalate [10] (ty :: cv) := by
    rw [show chainHash H key g ty cv ++ g :: List.intercalate [10] (ty :: cv)
        = (chainHash H key g ty cv ++ [g]) ++ List.intercalate [10] (ty :: cv)
      by simp]
    exact List.drop_left' (by simp [hClen])
  have hgetD : (chainHash H key g ty cv ++
      g :: List.intercalate [10] (ty :: cv)).getD 32 0 = g := by
    rw [List.getD_append_right _ _ _ _ (le_of_eq hClen), hClen]
    simp
  have hsplit : (List.intercalate [10] (ty :: cv)).splitOn 10 = ty :: cv :=
    List.splitOn_intercalate (ty :: cv) 10 hx (by simp)
  have hrec : reconstruct H key (chainHash H key g ty cv ++
      g :: List.intercalate [10] (ty :: cv)) = Almond.mk (chainHash H key g ty cv) cv g ty := by
    unfold reconstruct
    rw [hdrop, hsplit, hgetD, foldl_add_literal]
    simp only [List.tail_cons, List.headD_cons]
    unfold chainHash Almond.create
    simp
  rw [hrec, htake]
  simp

/-- Claim C1 (amended): for every 32-byte-valued hash step, secret key,
generation byte, newline-free type and newline-free caveat list, *where
the type or the caveat list is nonempty*, creating the token, appending
the caveats in order, serializing, and parsing with the same key succeeds
and returns the original token (hence the same generation, type, caveat
list and hash). -/
theorem C1_roundtrip (H : HashFn) (hH : ∀ h d, (H h d).length = 32)
    (key : List Nat) (generation : Nat) (t : List Nat) (cs : List (List Nat))
    (ht : (10 : Nat) ∉ t) (hcs : ∀ c ∈ cs, (10 : Nat) ∉ c)
    (hne : t ≠ [] ∨ cs ≠ []) :
    Almond.parse_and_validate H key
        ((cs.foldl (fun a c => a.add_literal_caveat H c)
          (Almond.create H key generation t)).serialize_binary)
      = Except.ok (cs.foldl (fun a c => a.add_literal_caveat H c)
          (Almond.create H key generation t)) := by
  apply parse_serialize_eq_ok H hH key
  · rw [foldl_add_literal]
    rfl
  · intro l hl
    rw [foldl_add_literal] at hl
    simp only [Almond.create, List.nil_append] at hl
    rcases List.mem_cons.mp hl with rfl | h
    · exact ht
    · exact hcs l h
  · rw [foldl_add_literal]
    simp only [Almond.create, List.nil_append]
    exact hne

/-- Witness for C1 at a concrete instance: empty key, generation 0, empty
type, a single one-byte caveat. -/
theorem C1_roundtrip_witness :
    Almond.parse_and_validate H0 []
        (([[97]] : List (List Nat)).foldl (fun a c => a.add_literal_caveat H0 c)
          (Almond.create H0 [] 0 [])).serialize_binary
      = Except.ok (([[97]] : List (List Nat)).foldl
          (fun a c => a.add_literal_caveat H0 c) (Almond.create H0 [] 0 [])) :=
  C1_roundtrip H0 (fun _ _ => by simp [H0]) [] 0 [] [[97]] (by decide)
    (by decide) (Or.inr (by decide))

/-- Counterexample to claim C1 as stated: with an empty type and an empty
caveat list the serialized token is only 33 bytes long, so
`parse_and_validate` fails with `InvalidAlmond` before any hash is
compared (the hash function is irrelevant: the length check fires first;
`H0` nevertheless satisfies the 32-byte output length of HMAC-SHA256, and
the empty type trivially contains no `0x0A` byte). -/
theorem C1_roundtrip_counterexample :
    (∀ h d, (H0 h d).length = 32)
    ∧ (10 : Nat) ∉ ([] : List Nat)
    ∧ Almond.parse_and_validate H0 []
        ((Almond.create H0 [] 0 []).serialize_binary)
      = Except.error AlmondParseError.InvalidAlmond :=
  ⟨fun _ _ => by simp [H0], by decide, by decide⟩
